import Mathlib

/-!
Verification development for the svc-rpc JSON-RPC micro handler.

The source under scrutiny is the `micro.js` part of svc-rpc: the validation-error
flattener `_makeHashOutOfValidateErrors`, the allOf-composition resolver
`_resolveAndCombineAllOfs`, and the request pipeline returned by `handleRpcs`.

JSON values are embedded as an inductive type; JavaScript objects are modelled as
association lists in insertion order, with property lookup, single-key assignment
(`obj[k] = v`), and `Object.assign` given explicit definitions below.
-/

set_option linter.unusedVariables false

inductive Json where
  | null
  | bool (b : Bool)
  | num (n : Int)
  | str (s : String)
  | arr (elems : List Json)
  | obj (fields : List (String × Json))
deriving Repr

/-- First-argument-biased choice on options (models JavaScript overwrite order
when read right-to-left). -/
def optOr {α : Type} : Option α → Option α → Option α
  | some v, _ => some v
  | none, b => b

/-- Property lookup on a JS object modelled as an association list. Later entries
shadow earlier ones (real JS objects never hold duplicate keys, so this agrees
with first-match lookup on them). -/
def alGet {α : Type} (fields : List (String × α)) (k : String) : Option α :=
  fields.foldl (fun acc kv => if kv.1 == k then some kv.2 else acc) none

/-- Property assignment `obj[k] = v`: update in place if the key is present
(keeping insertion order), otherwise append. -/
def alSet {α : Type} (fields : List (String × α)) (k : String) (v : α) :
    List (String × α) :=
  if fields.any (fun kv => kv.1 == k)
  then fields.map (fun kv => if kv.1 == k then (k, v) else kv)
  else fields ++ [(k, v)]

/-- `Object.assign(a, b)`: copy every property of `b` onto `a` in order. -/
def alAssign {α : Type} (a b : List (String × α)) : List (String × α) :=
  b.foldl (fun acc kv => alSet acc kv.1 kv.2) a

theorem optOr_none_right {α : Type} (x : Option α) : optOr x none = x := by
  cases x <;> rfl

theorem optOr_assoc {α : Type} (a b c : Option α) :
    optOr (optOr a b) c = optOr a (optOr b c) := by
  cases a <;> cases b <;> rfl

theorem alGet_nil {α : Type} (k : String) : alGet ([] : List (String × α)) k = none := rfl

theorem alGet_foldl_init {α : Type} (g : List (String × α)) (k : String) :
    ∀ init : Option α,
      g.foldl (fun acc kv => if kv.1 == k then some kv.2 else acc) init =
        optOr (alGet g k) init := by
  induction g with
  | nil => intro init; simp [alGet, optOr]
  | cons kv g ih =>
      intro init
      show List.foldl _ (if kv.1 == k then some kv.2 else init) g = _
      rw [ih]
      have h2 : alGet (kv :: g) k =
          optOr (alGet g k) (if kv.1 == k then some kv.2 else none) := by
        show List.foldl _ (if kv.1 == k then some kv.2 else none) g = _
        rw [ih]
      rw [h2, optOr_assoc]
      by_cases h : kv.1 = k <;> simp [h, optOr]

theorem alGet_cons {α : Type} (kv : String × α) (f : List (String × α)) (k : String) :
    alGet (kv :: f) k = optOr (alGet f k) (if kv.1 == k then some kv.2 else none) := by
  show List.foldl _ (if kv.1 == k then some kv.2 else none) f = _
  rw [alGet_foldl_init]

theorem alGet_append {α : Type} (f g : List (String × α)) (k : String) :
    alGet (f ++ g) k = optOr (alGet g k) (alGet f k) := by
  unfold alGet
  rw [List.foldl_append, alGet_foldl_init]
  rfl

theorem alGet_any_false {α : Type} (f : List (String × α)) (k : String)
    (h : f.any (fun kv => kv.1 == k) = false) : alGet f k = none := by
  induction f with
  | nil => rfl
  | cons kv f ih =>
      simp only [List.any_cons, Bool.or_eq_false_iff] at h
      rw [alGet_cons, ih h.2]
      simp [h.1, optOr]

theorem alGet_map_set_other {α : Type} (f : List (String × α)) (k k2 : String) (v : α)
    (hne : k2 ≠ k) :
    alGet (f.map (fun kv => if kv.1 == k then (k, v) else kv)) k2 = alGet f k2 := by
  induction f with
  | nil => rfl
  | cons kv f ih =>
      rw [List.map_cons, alGet_cons, alGet_cons, ih]
      by_cases h : kv.1 = k
      · simp [h, Ne.symm hne]
      · simp [h]

theorem alGet_map_set_same {α : Type} (f : List (String × α)) (k : String) (v : α)
    (h : f.any (fun kv => kv.1 == k) = true) :
    alGet (f.map (fun kv => if kv.1 == k then (k, v) else kv)) k = some v := by
  induction f with
  | nil => simp at h
  | cons kv f ih =>
      rw [List.map_cons, alGet_cons]
      by_cases hh : kv.1 = k
      · by_cases hf : f.any (fun kv => kv.1 == k) = true
        · rw [ih hf]; simp [hh, optOr]
        · have : f.any (fun kv => kv.1 == k) = false := by
            cases hfa : f.any (fun kv => kv.1 == k)
            · rfl
            · exact absurd hfa hf
          rw [alGet_any_false (f := f.map _) (k := k)]
          · simp [hh, optOr]
          · rw [List.any_map]
            rw [Bool.eq_false_iff] at this ⊢
            intro hc
            apply this
            rw [List.any_eq_true] at hc ⊢
            obtain ⟨kv2, hmem, hkv2⟩ := hc
            refine ⟨kv2, hmem, ?_⟩
            simp only [Function.comp] at hkv2
            by_cases h2 : kv2.1 = k
            · simp [h2]
            · simp [h2] at hkv2
      · simp only [List.any_cons] at h
        have hf : f.any (fun kv => kv.1 == k) = true := by
          cases h2 : (kv.1 == k)
          · rw [h2, Bool.false_or] at h; exact h
          · exact absurd (by simpa using h2) hh
        rw [ih hf]
        simp [hh, optOr]

theorem alSet_get_same {α : Type} (f : List (String × α)) (k : String) (v : α) :
    alGet (alSet f k v) k = some v := by
  unfold alSet
  by_cases h : f.any (fun kv => kv.1 == k) = true
  · rw [if_pos h]; exact alGet_map_set_same f k v h
  · have hf : f.any (fun kv => kv.1 == k) = false := by
      cases hfa : f.any (fun kv => kv.1 == k)
      · rfl
      · exact absurd hfa h
    rw [if_neg (by simp [hf]), alGet_append]
    rw [alGet_cons]
    simp [optOr, alGet]

theorem alSet_get_other {α : Type} (f : List (String × α)) (k k2 : String) (v : α)
    (hne : k2 ≠ k) : alGet (alSet f k v) k2 = alGet f k2 := by
  unfold alSet
  by_cases h : f.any (fun kv => kv.1 == k) = true
  · rw [if_pos h]; exact alGet_map_set_other f k k2 v hne
  · have hf : f.any (fun kv => kv.1 == k) = false := by
      cases hfa : f.any (fun kv => kv.1 == k)
      · rfl
      · exact absurd hfa h
    rw [if_neg (by simp [hf]), alGet_append, alGet_cons]
    simp [Ne.symm hne, optOr, alGet]

theorem alAssign_get {α : Type} (b : List (String × α)) :
    ∀ (a : List (String × α)) (k : String),
      alGet (alAssign a b) k = optOr (alGet b k) (alGet a k) := by
  induction b with
  | nil => intro a k; simp [alAssign, alGet, optOr]
  | cons kv b ih =>
      intro a k
      show alGet (alAssign (alSet a kv.1 kv.2) b) k = _
      rw [ih, alGet_cons, optOr_assoc]
      by_cases h : kv.1 = k
      · rw [← h, alSet_get_same]
        simp [optOr]
      · rw [alSet_get_other _ _ _ _ (Ne.symm h)]
        simp [h, optOr]

/-! ## Validation errors and the flattener `_makeHashOutOfValidateErrors` -/

/-- A tv4 `ValidationError` node: `message`, `dataPath`, `schemaPath`,
`params.key` (present on required-property violations), and the optional
`subErrors` array. -/
inductive VError where
  | node (message : String) (dataPath : String) (schemaPath : String)
      (paramsKey : Option String) (subErrors : Option (List VError))

def VError.message : VError → String
  | .node m _ _ _ _ => m

def VError.dataPath : VError → String
  | .node _ d _ _ _ => d

def VError.schemaPath : VError → String
  | .node _ _ s _ _ => s

def VError.paramsKey : VError → Option String
  | .node _ _ _ k _ => k

def VError.subErrors : VError → Option (List VError)
  | .node _ _ _ _ s => s

/-- Whether `pat` occurs at the start of `s` (on character lists). -/
def charsStartWith : List Char → List Char → Bool
  | _, [] => true
  | [], _ :: _ => false
  | a :: as, b :: bs => a == b && charsStartWith as bs

/-- Whether `pat` occurs anywhere in `s` (on character lists). -/
def charsContain : List Char → List Char → Bool
  | [], pat => pat.isEmpty
  | a :: rest, pat => charsStartWith (a :: rest) pat || charsContain rest pat

/-- Substring test, modelling the regular-expression test `/pat/.test(s)`
for a plain pattern. -/
def strContains (s pat : String) : Bool := charsContain s.data pat.data

/-- `dataPath.substring(1).replace(/\//g, '.')`: drop the leading character
and turn every slash into a dot. -/
def dataPathToPath (dp : String) : String :=
  String.mk ((dp.data.drop 1).map (fun c => if c == '/' then '.' else c))

/-- The path a validation-error node is flattened to (a lodash path string).
If the node's `schemaPath` matches `/required/`, the path is `params.key`
(lodash `set` stringifies an undefined path to the key "undefined");
otherwise it is the `dataPath` with the leading slash stripped and the
remaining slashes turned into dots. -/
def errPath (e : VError) : String :=
  if strContains e.schemaPath "required" then
    match e.paramsKey with
    | some k => k
    | none => "undefined"
  else dataPathToPath e.dataPath

/-- Split a character list at every occurrence of `c` (so the empty list
yields one empty piece, like `"".split`). -/
def splitOnChar (c : Char) : List Char → List (List Char)
  | [] => [[]]
  | a :: rest =>
      match splitOnChar c rest with
      | [] => if a == c then [[], []] else [[a]]
      | g :: gs => if a == c then [] :: g :: gs else (a :: g) :: gs

/-- lodash path parsing for the dot-separated paths produced by `errPath`. -/
def parsePath (s : String) : List String := (splitOnChar '.' s.data).map String.mk

/-- lodash `set(obj, path, v)` restricted to object spines: walks `path`,
replacing missing or non-object intermediates with fresh objects, and assigns
`v` at the final key. (lodash would build arrays for numeric path segments;
the error paths exercised here are plain property names, modelled uniformly
as object keys.) Setting into a non-object root returns it unchanged. -/
def lodashSet : Json → List String → Json → Json
  | j, [], _ => j
  | .obj f, [k], v => .obj (alSet f k v)
  | .obj f, k :: rest, v =>
      let child : Json :=
        match alGet f k with
        | some (.obj cf) => .obj cf
        | _ => .obj []
      .obj (alSet f k (lodashSet child rest v))
  | j, _ :: _, _ => j

/-- Path lookup into nested objects (to state what `lodashSet` wrote). -/
def getJsonPath : Json → List String → Option Json
  | j, [] => some j
  | .obj f, k :: rest =>
      match alGet f k with
      | some v => getJsonPath v rest
      | none => none
  | _, _ :: _ => none

mutual
/-- `_makeHashOutOfValidateErrors(accumulatedErrors, validateError)`: set the
node's message at its computed path, then, if `subErrors` is present, fold
over it left to right. (The JS source shallow-copies the accumulator and
mutates the copy; the accumulator is threaded linearly, so the pure update
below has the same result.) -/
def makeHashOutOfValidateErrors : Json → VError → Json
  | acc, .node m dp sp pk subs =>
      let acc2 := lodashSet acc (parsePath (errPath (.node m dp sp pk subs))) (.str m)
      match subs with
      | none => acc2
      | some l => makeHashList acc2 l

/-- `subErrors.reduce(_makeHashOutOfValidateErrors, acc)`. -/
def makeHashList : Json → List VError → Json
  | acc, [] => acc
  | acc, e :: rest => makeHashList (makeHashOutOfValidateErrors acc e) rest
end

theorem makeHashList_eq_foldl (es : List VError) :
    ∀ acc : Json, makeHashList acc es = es.foldl makeHashOutOfValidateErrors acc := by
  induction es with
  | nil => intro acc; rfl
  | cons e rest ih =>
      intro acc
      rw [List.foldl_cons, ← ih]
      rfl

theorem makeHash_leaf (acc : Json) (e : VError) (h : e.subErrors = none) :
    makeHashOutOfValidateErrors acc e =
      lodashSet acc (parsePath (errPath e)) (.str e.message) := by
  cases e with
  | node m dp sp pk subs =>
      cases subs with
      | none => rfl
      | some l => simp [VError.subErrors] at h

theorem makeHash_node (acc : Json) (e : VError) (subs : List VError)
    (h : e.subErrors = some subs) :
    makeHashOutOfValidateErrors acc e =
      subs.foldl makeHashOutOfValidateErrors
        (lodashSet acc (parsePath (errPath e)) (.str e.message)) := by
  cases e with
  | node m dp sp pk s =>
      cases s with
      | none => simp [VError.subErrors] at h
      | some l =>
          simp only [VError.subErrors, Option.some.injEq] at h
          subst h
          rw [← makeHashList_eq_foldl]
          rfl

/-- `lodashSet` keeps an object root an object. -/
theorem lodashSet_obj (f : List (String × Json)) (p : List String) (v : Json) :
    ∃ g, lodashSet (.obj f) p v = .obj g := by
  cases p with
  | nil => exact ⟨f, rfl⟩
  | cons k rest =>
      cases rest with
      | nil => exact ⟨alSet f k v, rfl⟩
      | cons k2 r2 => exact ⟨_, rfl⟩

/-- What `lodashSet` wrote is what `getJsonPath` reads back: the last writer
at a path wins. -/
theorem getJsonPath_lodashSet (p : List String) :
    ∀ (f : List (String × Json)) (v : Json), p ≠ [] →
      getJsonPath (lodashSet (.obj f) p v) p = some v := by
  induction p with
  | nil => intro f v h; exact absurd rfl h
  | cons k rest ih =>
      intro f v _
      cases rest with
      | nil =>
          show getJsonPath (.obj (alSet f k v)) [k] = some v
          simp [getJsonPath, alSet_get_same]
      | cons k2 r2 =>
          show getJsonPath (.obj (alSet f k (lodashSet _ (k2 :: r2) v))) (k :: k2 :: r2) = some v
          have hchild : ∀ cf : List (String × Json),
              getJsonPath (lodashSet (.obj cf) (k2 :: r2) v) (k2 :: r2) = some v :=
            fun cf => ih cf v (by simp)
          simp only [getJsonPath, alSet_get_same]
          cases hg : alGet f k with
          | none => exact hchild []
          | some c =>
              cases c with
              | obj cf => exact hchild cf
              | null => exact hchild []
              | bool b => exact hchild []
              | num n => exact hchild []
              | str s => exact hchild []
              | arr es => exact hchild []

/-! ## Schemas and the composition resolver `_resolveAndCombineAllOfs` -/

/-- The slice of a JSON-Schema document the source reads: `allOf` (a list of
`{$ref: name}` entries, modelled by their reference names), `properties`,
`required`, `type` (called `stype`, `type` being reserved), and `default`. -/
inductive Schema where
  | mk (allOf : Option (List String))
      (properties : Option (List (String × Schema)))
      (required : Option (List String))
      (stype : Option String)
      (default : Option Json)

def Schema.allOf : Schema → Option (List String)
  | .mk a _ _ _ _ => a

def Schema.properties : Schema → Option (List (String × Schema))
  | .mk _ p _ _ _ => p

def Schema.required : Schema → Option (List String)
  | .mk _ _ r _ _ => r

def Schema.stype : Schema → Option String
  | .mk _ _ _ t _ => t

def Schema.default : Schema → Option Json
  | .mk _ _ _ _ d => d

/-- `schema.properties || {}`. -/
def Schema.propertiesD (s : Schema) : List (String × Schema) :=
  s.properties.getD []

/-- `Object.assign({}, schema, {properties: combined})`. -/
def Schema.withProperties : Schema → List (String × Schema) → Schema
  | .mk a _ r t d, p => .mk a (some p) r t d

/-- The tv4 schema registry (`tv4.addSchema` / `tv4.getSchema`). -/
abbrev SchemaEnv := List (String × Schema)

/-- `schema.allOf.reduce((prev, curr) => Object.assign({}, prev,
resolve(tv4.getSchema(curr.$ref)).properties), seed)`, for a given resolver
(instantiated below with `_resolveAndCombineAllOfs` one fuel level down). -/
def combineRefsWith (resolve : Schema → Option Schema) (env : SchemaEnv) :
    List (String × Schema) → List String → Option (List (String × Schema))
  | acc, [] => some acc
  | acc, r :: rest =>
      match alGet env r with
      | none => none
      | some sub =>
          match resolve sub with
          | none => none
          | some rsub => combineRefsWith resolve env (alAssign acc rsub.propertiesD) rest

/-- `_resolveAndCombineAllOfs(schema)`: if there is no `allOf`, return the
schema unchanged; otherwise reduce over the `allOf` references, starting from
`schema.properties || {}` and `Object.assign`-ing each recursively resolved
referenced schema's properties on top, then return the schema with the
combined properties. The JS recursion is unbounded (it diverges or crashes
on cyclic or missing references); `fuel` bounds it here, and `none` marks
those runtime-failure outcomes. -/
def resolveAndCombineAllOfs : Nat → SchemaEnv → Schema → Option Schema
  | 0, _, _ => none
  | fuel + 1, env, s =>
      match s.allOf with
      | none => some s
      | some refs =>
          match combineRefsWith (resolveAndCombineAllOfs fuel env) env s.propertiesD refs with
          | none => none
          | some combined => some (s.withProperties combined)

/-- The recursively resolved schemas of a list of `allOf` references, in
declared order (`none` if any reference is missing or resolution fails). -/
def resolveRefsList (env : SchemaEnv) (fuel : Nat) : List String → Option (List Schema)
  | [] => some []
  | r :: rest =>
      match (alGet env r).bind (resolveAndCombineAllOfs fuel env) with
      | none => none
      | some rsub =>
          match resolveRefsList env fuel rest with
          | none => none
          | some rs => some (rsub :: rs)

theorem Schema.withProperties_propertiesD (s : Schema) (p : List (String × Schema)) :
    (s.withProperties p).propertiesD = p := by
  cases s; rfl

theorem combineAllOfRefs_spec (env : SchemaEnv) (fuel : Nat) :
    ∀ (refs : List String) (acc combined : List (String × Schema)),
      combineRefsWith (resolveAndCombineAllOfs fuel env) env acc refs = some combined →
      ∃ rsubs : List Schema,
        resolveRefsList env fuel refs = some rsubs ∧
        combined = rsubs.foldl (fun a r => alAssign a r.propertiesD) acc ∧
        ∀ k, alGet combined k =
          rsubs.foldl (fun a r => optOr (alGet r.propertiesD k) a) (alGet acc k) := by
  intro refs
  induction refs with
  | nil =>
      intro acc combined h
      refine ⟨[], rfl, ?_, ?_⟩
      · simpa [combineRefsWith] using h.symm
      · intro k
        simp only [combineRefsWith, Option.some.injEq] at h
        subst h
        rfl
  | cons r rest ih =>
      intro acc combined h
      simp only [combineRefsWith] at h
      cases hg : alGet env r with
      | none => simp only [hg] at h; exact absurd h (by simp)
      | some sub =>
          simp only [hg] at h
          cases hr : resolveAndCombineAllOfs fuel env sub with
          | none => simp only [hr] at h; exact absurd h (by simp)
          | some rsub =>
              simp only [hr] at h
              obtain ⟨rsubs, h1, h2, h3⟩ := ih (alAssign acc rsub.propertiesD) combined h
              refine ⟨rsub :: rsubs, ?_, ?_, ?_⟩
              · simp [resolveRefsList, hg, hr, h1]
              · rw [List.foldl_cons]; exact h2
              · intro k
                rw [List.foldl_cons, ← alAssign_get]
                exact h3 k

/-- C1 (amended): for a schema with an `allOf` keyword whose resolution
succeeds, the resolved `properties` mapping is exactly the fold that starts
from the schema's own `properties` and overlays each recursively resolved
composed schema's properties in declared order — so on key collisions the
composed (referenced) schemas' properties take precedence over the schema's
own declared properties, and later-listed references over earlier ones. -/
theorem resolveAndCombineAllOfs_composed_precedence
    (fuel : Nat) (env : SchemaEnv) (s s' : Schema) (refs : List String)
    (hAll : s.allOf = some refs)
    (hres : resolveAndCombineAllOfs (fuel + 1) env s = some s') :
    ∃ rsubs : List Schema,
      resolveRefsList env fuel refs = some rsubs ∧
      s'.propertiesD = rsubs.foldl (fun a r => alAssign a r.propertiesD) s.propertiesD ∧
      ∀ k, alGet s'.propertiesD k =
        rsubs.foldl (fun a r => optOr (alGet r.propertiesD k) a) (alGet s.propertiesD k) := by
  simp only [resolveAndCombineAllOfs, hAll] at hres
  cases hc : combineRefsWith (resolveAndCombineAllOfs fuel env) env s.propertiesD refs with
  | none => simp only [hc] at hres; exact absurd hres (by simp)
  | some combined =>
      simp only [hc, Option.some.injEq] at hres
      subst hres
      obtain ⟨rsubs, h1, h2, h3⟩ := combineAllOfRefs_spec env fuel refs s.propertiesD combined hc
      refine ⟨rsubs, h1, ?_, ?_⟩
      · rw [Schema.withProperties_propertiesD]; exact h2
      · intro k; rw [Schema.withProperties_propertiesD]; exact h3 k

/-- A base schema registered as "base", declaring property `a` with default "Y". -/
def cexBasePropA : Schema := .mk none none none (some "string") (some (.str "Y"))

/-- The derived schema's own declaration of property `a`, with default "X". -/
def cexOwnPropA : Schema := .mk none none none (some "string") (some (.str "X"))

def cexBase : Schema := .mk none (some [("a", cexBasePropA)]) none (some "object") none

/-- A schema composing `{$ref: "base"}` via `allOf` while also declaring
property `a` itself. -/
def cexDerived : Schema :=
  .mk (some ["base"]) (some [("a", cexOwnPropA)]) none (some "object") none

def cexEnv : SchemaEnv := [("base", cexBase)]

/-- C1 counterexample: resolving a schema that both declares property `a`
(default "X") and composes a base schema declaring `a` (default "Y") yields
the BASE schema's `a` — the composed schema's property wins the collision,
not the schema's own declared property as the claim states. -/
theorem resolveAndCombineAllOfs_own_precedence_cex :
    resolveAndCombineAllOfs 2 cexEnv cexDerived =
      some (cexDerived.withProperties [("a", cexBasePropA)]) ∧
    alGet (cexDerived.withProperties [("a", cexBasePropA)]).propertiesD "a" =
      some cexBasePropA ∧
    alGet cexDerived.propertiesD "a" = some cexOwnPropA ∧
    (some cexBasePropA : Option Schema) ≠ some cexOwnPropA := by
  refine ⟨rfl, rfl, rfl, ?_⟩
  intro h
  injection h with h1
  have h2 := congrArg Schema.default h1
  simp only [cexBasePropA, cexOwnPropA, Schema.default] at h2
  injection h2 with h3
  injection h3 with h4
  exact absurd h4 (by decide)

/-- Witness for the amended C1 theorem at the concrete composition above. -/
theorem resolveAndCombineAllOfs_composed_precedence_witness :
    ∃ rsubs : List Schema,
      resolveRefsList cexEnv 1 ["base"] = some rsubs ∧
      (cexDerived.withProperties [("a", cexBasePropA)]).propertiesD =
        rsubs.foldl (fun a r => alAssign a r.propertiesD) cexDerived.propertiesD ∧
      ∀ k, alGet (cexDerived.withProperties [("a", cexBasePropA)]).propertiesD k =
        rsubs.foldl (fun a r => optOr (alGet r.propertiesD k) a)
          (alGet cexDerived.propertiesD k) :=
  resolveAndCombineAllOfs_composed_precedence 1 cexEnv cexDerived
    (cexDerived.withProperties [("a", cexBasePropA)]) ["base"] rfl rfl

/-- C6: flattening is a left-to-right depth-first fold over `subErrors` in
declared order; a node with no `subErrors` contributes exactly its own entry;
a node's message is assigned at its computed path before its children are
folded; and assignment is last-writer-wins — what `lodashSet` wrote at a path
is what lookup reads back, so of two leaves flattened to the same path the
later one's message survives. -/
theorem makeHash_fold_spec :
    (∀ (acc : Json) (es : List VError),
        makeHashList acc es = es.foldl makeHashOutOfValidateErrors acc) ∧
    (∀ (acc : Json) (e : VError), e.subErrors = none →
        makeHashOutOfValidateErrors acc e =
          lodashSet acc (parsePath (errPath e)) (.str e.message)) ∧
    (∀ (acc : Json) (e : VError) (subs : List VError), e.subErrors = some subs →
        makeHashOutOfValidateErrors acc e =
          subs.foldl makeHashOutOfValidateErrors
            (lodashSet acc (parsePath (errPath e)) (.str e.message))) ∧
    (∀ (f : List (String × Json)) (p : List String) (v : Json), p ≠ [] →
        getJsonPath (lodashSet (.obj f) p v) p = some v) ∧
    (∀ (f : List (String × Json)) (e1 e2 : VError),
        e1.subErrors = none → e2.subErrors = none →
        parsePath (errPath e1) = parsePath (errPath e2) →
        parsePath (errPath e2) ≠ [] →
        getJsonPath (makeHashList (.obj f) [e1, e2]) (parsePath (errPath e2)) =
          some (.str e2.message)) := by
  refine ⟨fun acc es => makeHashList_eq_foldl es acc, makeHash_leaf, ?_, ?_, ?_⟩
  · intro acc e subs h; exact makeHash_node acc e subs h
  · intro f p v hp; exact getJsonPath_lodashSet p f v hp
  · intro f e1 e2 h1 h2 hpp hne
    have hlist : makeHashList (.obj f) [e1, e2] =
        makeHashOutOfValidateErrors (makeHashOutOfValidateErrors (.obj f) e1) e2 := by
      rw [makeHashList_eq_foldl]; rfl
    rw [hlist, makeHash_leaf (.obj f) e1 h1]
    obtain ⟨g, hg⟩ := lodashSet_obj f (parsePath (errPath e1)) (.str e1.message)
    rw [hg, makeHash_leaf _ e2 h2]
    exact getJsonPath_lodashSet _ g _ hne

/-- Two leaf validation errors that flatten to the same path "t". -/
def flatLeafA : VError := .node "first" "/t" "/properties/t/minLength" none none

def flatLeafB : VError := .node "second" "/t" "/properties/t/maxLength" none none

/-- Witness for C6 at concrete inputs: of two leaves mapping to path "t",
the later one's message wins. -/
theorem makeHash_fold_spec_witness :
    getJsonPath (makeHashList (.obj []) [flatLeafA, flatLeafB])
        (parsePath (errPath flatLeafB)) = some (.str "second") := by
  have h := makeHash_fold_spec.2.2.2.2 [] flatLeafA flatLeafB rfl rfl rfl (by decide)
  exact h

/-- C10: the flattener chooses the required-field path solely by whether the
substring "required" occurs in the node's `schemaPath`: if it does, the path
is `params.key` (stringified to "undefined" when absent) no matter what kind
of violation the node records; otherwise it is derived from `dataPath`.
Concretely, a minLength violation at data path "/required" (a property
literally named "required") is filed under key "undefined", not under
"required". -/
theorem errPath_required_substring_decision :
    (∀ e : VError, strContains e.schemaPath "required" = true →
        errPath e = match e.paramsKey with | some k => k | none => "undefined") ∧
    (∀ e : VError, strContains e.schemaPath "required" = false →
        errPath e = dataPathToPath e.dataPath) ∧
    makeHashOutOfValidateErrors (.obj [])
        (.node "too short" "/required" "/properties/required/minLength" none none) =
      .obj [("undefined", .str "too short")] ∧
    getJsonPath
        (makeHashOutOfValidateErrors (.obj [])
          (.node "too short" "/required" "/properties/required/minLength" none none))
        ["required"] = none := by
  refine ⟨?_, ?_, ?_, ?_⟩
  · intro e h; simp [errPath, h]
  · intro e h; simp [errPath, h]
  · rw [makeHash_leaf (.obj [])
      (.node "too short" "/required" "/properties/required/minLength" none none) rfl]
    rfl
  · rw [makeHash_leaf (.obj [])
      (.node "too short" "/required" "/properties/required/minLength" none none) rfl]
    rfl

/-- Witness for C10: a node whose schemaPath mentions "required" without
being a required-rule violation is keyed by the stringified absent
`params.key`; an ordinary node is keyed by its dataPath. -/
theorem errPath_required_substring_decision_witness :
    errPath (.node "m" "/req" "/properties/required/minLength" none none) = "undefined" ∧
    errPath (.node "m" "/title" "/properties/title/minLength" none none) = "title" := by
  constructor
  · exact errPath_required_substring_decision.1
      (.node "m" "/req" "/properties/required/minLength" none none) rfl
  · exact errPath_required_substring_decision.2.1
      (.node "m" "/title" "/properties/title/minLength" none none) rfl

/-! ## The request pipeline (`handleRpcs`'s returned request handler) -/

/-- Whether a parsed value is JSON `null` (property access on it, as in
`js.method`, throws a TypeError; the pipeline model returns `none` there). -/
def Json.isNull : Json → Bool
  | .null => true
  | _ => false

/-- `js.k` — property access on a parsed JSON value (non-objects have no own
properties; `undefined` is `none`). -/
def jsField (js : Json) (k : String) : Option Json :=
  match js with
  | .obj f => alGet f k
  | _ => none

/-- Comma-join for JS `Array.prototype.toString`. -/
def joinWithComma : List String → String
  | [] => ""
  | [s] => s
  | s :: rest => s ++ "," ++ joinWithComma rest

/-- What a JSON value renders to inside a JS array join (`null` renders
empty; a nested array would recursively join in JS, which no
envelope-validated request can reach and which is flattened here). -/
def jsAtomToStr : Json → String
  | .null => ""
  | .bool true => "true"
  | .bool false => "false"
  | .num n => toString n
  | .str s => s
  | .arr _ => ""
  | .obj _ => "[object Object]"

/-- JavaScript string coercion `String(v)`, as performed by the property
lookup `methods[js.method]` on a non-string `method` value. -/
def jsToStr : Json → String
  | .null => "null"
  | .bool true => "true"
  | .bool false => "false"
  | .num n => toString n
  | .str s => s
  | .arr xs => joinWithComma (xs.map jsAtomToStr)
  | .obj _ => "[object Object]"

/-- The property key `methods[js.method]` is looked up under: the string
coercion of `js.method`, or "undefined" when the field is absent. -/
def methodKey (js : Json) : String :=
  match jsField js "method" with
  | none => "undefined"
  | some v => jsToStr v

/-- `dontDefault.indexOf(js.method) === -1` is false only when `js.method`
is literally one of the configured strings. -/
def inDontDefault (dontDefault : List String) (js : Json) : Bool :=
  match jsField js "method" with
  | some (.str s) => dontDefault.contains s
  | _ => false

/-- lodash `get(js, ['params', k])`. -/
def lodashGet2 (js : Json) (k1 k2 : String) : Option Json :=
  match jsField js k1 with
  | some (.obj f2) => alGet f2 k2
  | _ => none

/-- lodash `set(js, ['params', k], v)`: keeps `js.params` when it is an
object, otherwise replaces it with a fresh object, then assigns `k`.
Setting on a non-object root returns it unchanged. -/
def lodashSetParams (js : Json) (k : String) (v : Json) : Json :=
  match js with
  | .obj f =>
      let pf : List (String × Json) :=
        match alGet f "params" with
        | some (.obj pf) => pf
        | _ => []
      .obj (alSet f "params" (.obj (alSet pf k v)))
  | j => j

/-- One iteration of the defaulting loop: skip properties without a
`default`, skip keys where `get(js, ['params', key]) !== undefined`,
otherwise `set(js, ['params', key], default)`. -/
def injectStep (js : Json) (kv : String × Schema) : Json :=
  match kv.2.default with
  | none => js
  | some d =>
      match lodashGet2 js "params" kv.1 with
      | some _ => js
      | none => lodashSetParams js kv.1 d

/-- `Object.keys(combinedSchema.properties || {}).forEach(...)` — the
defaulting loop over the combined properties in declared order (JS object
keys are unique, so iterating entries is iterating keys). -/
def injectDefaults (props : List (String × Schema)) (js : Json) : Json :=
  props.foldl injectStep js

/-- `js.params || {}` (any falsy `params` — absent, null, false, 0, "" —
validates as the empty object). -/
def paramsOrEmpty : Option Json → Json
  | none => .obj []
  | some v =>
      match v with
      | .null => .obj []
      | .bool false => .obj []
      | .num 0 => .obj []
      | .str "" => .obj []
      | v => v

/-- A fault raised by a dispatched handler: either a recognized `RpcError`
(carrying data, message and code) or any other thrown value, carried here
in its `serializeError` form. -/
inductive JsErr where
  | rpcError (data : Json) (message : String) (code : Int)
  | other (serialized : Json)

/-- A registry entry: the exported handler function and its
`paramsSchema` (absent for inherited-looking modules without one). -/
structure MethodEntry where
  paramsSchema : Option Schema
  handler : Option Json → Except JsErr Json

/-- What `methods[key]` can find: an own entry, an inherited
`Object.prototype` member (the registry is a plain object literal, so these
are visible and truthy), or nothing. -/
inductive MethodLookup where
  | own (entry : MethodEntry)
  | proto (name : String)
  | absent

/-- The enumerable-and-not properties every plain JS object inherits from
`Object.prototype`. -/
def objectProtoMembers : List String :=
  ["constructor", "hasOwnProperty", "isPrototypeOf", "propertyIsEnumerable",
   "toLocaleString", "toString", "valueOf", "__proto__", "__defineGetter__",
   "__defineSetter__", "__lookupGetter__", "__lookupSetter__"]

def lookupMethod (methods : List (String × MethodEntry)) (k : String) : MethodLookup :=
  match alGet methods k with
  | some e => .own e
  | none => if objectProtoMembers.contains k then .proto k else .absent

/-- A terminal JSON-RPC response: `{jsonrpc, result, id}` or
`{jsonrpc, error: {code, message, data}, id}`. `rid = none` models an
`undefined` id (the key is dropped on serialization). -/
inductive RpcResponse where
  | success (result : Json) (rid : Option Json)
  | failure (code : Int) (message : String) (data : Json) (rid : Option Json)

def RpcResponse.rid : RpcResponse → Option Json
  | .success _ i => i
  | .failure _ _ _ i => i

/-- One request's observable outcome: the response, whether a fault was
reported to the observability sink (`console.error`), and the trace of
handler dispatches `(method key, params argument)`. -/
structure PipelineOut where
  response : RpcResponse
  reported : Bool
  dispatched : List (String × Option Json)

/-- The catch-clause handling of a dispatch outcome: a successful result
becomes a success response; a thrown `RpcError` is propagated verbatim; any
other fault is wrapped as -32603 "Internal error", its serialization kept as
`data` outside production and replaced by the literal `false` (the
short-circuited `&&`) in production, where it is also reported. -/
def finishDispatch (prod : Bool) (out : Except JsErr Json) (mkey : String)
    (params : Option Json) (rid : Option Json) : PipelineOut :=
  match out with
  | .ok result => ⟨.success result rid, false, [(mkey, params)]⟩
  | .error (.rpcError d m c) => ⟨.failure c m d rid, false, [(mkey, params)]⟩
  | .error (.other ser) =>
      ⟨.failure (-32603) "Internal error" (if prod then .bool false else ser) rid,
        prod, [(mkey, params)]⟩

/-- The defaulting stage: only when the method has a `paramsSchema` and is
not listed in `dontDefault`; resolves the composed schema and injects its
property defaults. `none` models the runtime crash of
`_resolveAndCombineAllOfs` on a missing or cyclic reference. -/
def defaultParamsStep (env : SchemaEnv) (fuel : Nat) (dontDefault : List String)
    (entry : MethodEntry) (js : Json) : Option Json :=
  match entry.paramsSchema with
  | none => some js
  | some sch =>
      if inDontDefault dontDefault js then some js
      else
        match resolveAndCombineAllOfs fuel env sch with
        | none => none
        | some combined => some (injectDefaults combined.propertiesD js)

/-- The params-validation stage: only when the method declares a
`paramsSchema`; validates `js.params || {}` against the RAW (uncomposed)
schema. -/
def paramsValidation (validate : Json → Schema → Option VError)
    (entry : MethodEntry) (js : Json) : Option VError :=
  match entry.paramsSchema with
  | none => none
  | some sch => validate (paramsOrEmpty (jsField js "params")) sch

/-- The request handler `handleRpcs` returns, from successful
content-type gate onwards, as a function of the JSON parse outcome
(`.error e` = the body was not well-formed JSON, `e` its serializeError
form). `validate` stands for `tv4.validateResult` (an external collaborator;
valid ↦ `none`, invalid ↦ the error tree), `protoCall` for invoking an
inherited `Object.prototype` member as a handler. The result is `none` only
on the unmodelled runtime crashes (property access on a `null` request
value, or `_resolveAndCombineAllOfs` crashing on a missing/cyclic `$ref`). -/
def handleRpc (validate : Json → Schema → Option VError) (reqSchema : Schema)
    (env : SchemaEnv) (methods : List (String × MethodEntry))
    (dontDefault : List String) (prod : Bool)
    (protoCall : String → Option Json → Except JsErr Json) (fuel : Nat)
    (parsed : Except Json Json) : Option PipelineOut :=
  match parsed with
  | .error ser => some ⟨.failure (-32700) "Parse error" ser (some .null), false, []⟩
  | .ok js =>
      match validate js reqSchema with
      | some e =>
          some ⟨.failure (-32600) "Invalid request" (makeHashOutOfValidateErrors (.obj []) e)
            (jsField js "id"), false, []⟩
      | none =>
          if js.isNull then none
          else
              match lookupMethod methods (methodKey js) with
              | .absent =>
                  some ⟨.failure (-32601) "Method not found" .null (jsField js "id"), false, []⟩
              | .proto name =>
                  some (finishDispatch prod (protoCall name (jsField js "params"))
                    (methodKey js) (jsField js "params") (jsField js "id"))
              | .own entry =>
                  match defaultParamsStep env fuel dontDefault entry js with
                  | none => none
                  | some js2 =>
                      match paramsValidation validate entry js2 with
                      | some e =>
                          some ⟨.failure (-32602) "Invalid params"
                            (makeHashOutOfValidateErrors (.obj []) e)
                            (jsField js2 "id"), false, []⟩
                      | none =>
                          some (finishDispatch prod (entry.handler (jsField js2 "params"))
                            (methodKey js) (jsField js2 "params") (jsField js2 "id"))

/-! ## Spec-modelled collaborators: the envelope schema and the validator -/

/-- Whether a JSON value satisfies a JSON-Schema `type` keyword. -/
def typeOk (t : String) (v : Json) : Bool :=
  match t, v with
  | "object", .obj _ => true
  | "string", .str _ => true
  | "number", .num _ => true
  | "integer", .num _ => true
  | "boolean", .bool _ => true
  | "array", .arr _ => true
  | "null", .null => true
  | _, _ => false

/-- The first property of `required` (checked in declared order, indexed
from `i`) that the object lacks. -/
def findMissingRequired (f : List (String × Json)) : Nat → List String → Option (Nat × String)
  | _, [] => none
  | i, r :: rest =>
      if (alGet f r).isSome then findMissingRequired f (i + 1) rest else some (i, r)

/-- Validate each declared property present on the object, in declared
order, with the supplied sub-schema validator; first error wins. -/
def validatePropsWith (go : String → String → Json → Schema → Option VError)
    (dp sp : String) (f : List (String × Json)) :
    List (String × Schema) → Option VError
  | [] => none
  | (k, sub) :: rest =>
      match alGet f k with
      | some v =>
          match go (dp ++ "/" ++ k) (sp ++ "/properties/" ++ k) v sub with
          | some e => some e
          | none => validatePropsWith go dp sp f rest
      | none => validatePropsWith go dp sp f rest

/-- The object-keyword checks (`required` before `properties`; non-objects
have nothing to check beyond `type`). -/
def validateMembers (go : String → String → Json → Schema → Option VError)
    (dp sp : String) (v : Json) (s : Schema) : Option VError :=
  match v with
  | .obj f =>
      match findMissingRequired f 0 (s.required.getD []) with
      | some ir =>
          some (.node ("Missing required property: " ++ ir.2) dp
            (sp ++ "/required/" ++ toString ir.1) (some ir.2) none)
      | none => validatePropsWith go dp sp f s.propertiesD
  | _ => none

/-- Modelled from the spec: the Schema Validator collaborator
(`tv4.validateResult`; tv4 is an external dependency whose sources are not
part of this repository). Spec 4.1: it supports `type` and
`properties`/`required` for objects and reports the first violation; a
missing required property is reported with `params.key` set to the missing
property's own name and a schemaPath ending in `/required/<index>`, the
`required` list being checked in declared order so the FIRST missing
property is the one reported. `fuel` bounds recursion into property
sub-schemas (exhaustion reports valid; every use below provides enough). -/
def validateSchema : Nat → String → String → Json → Schema → Option VError
  | 0, _, _, _, _ => none
  | fuel + 1, dp, sp, v, s =>
      match s.stype with
      | some t =>
          if typeOk t v then validateMembers (validateSchema fuel) dp sp v s
          else some (.node ("Invalid type (expected " ++ t ++ ")") dp (sp ++ "/type")
            none none)
      | none => validateMembers (validateSchema fuel) dp sp v s

/-- `tv4.validateResult(value, schema)` from the root. -/
def modelValidate (fuel : Nat) (v : Json) (s : Schema) : Option VError :=
  validateSchema fuel "" "" v s

def methodEnvelopeSchema : Schema := .mk none none none (some "string") none

def paramsEnvelopeSchema : Schema := .mk none none none (some "object") none

/-- Modelled from the spec: `./request.schema` (required by the pipeline but
not present under src/). Spec 3: the envelope "must validate against the
fixed envelope schema (method required, id any type, params optional
object)". -/
def requestSchema : Schema :=
  .mk none (some [("method", methodEnvelopeSchema), ("params", paramsEnvelopeSchema)])
    (some ["method"]) (some "object") none

/-- C7: for every request body that is not well-formed JSON, the pipeline
returns code -32700, message "Parse error", the serialized underlying error
as data, and id null (parsing failed before an id could be read), with no
report and no dispatch. -/
theorem handleRpc_parse_error (validate : Json → Schema → Option VError)
    (reqSchema : Schema) (env : SchemaEnv) (methods : List (String × MethodEntry))
    (dontDefault : List String) (prod : Bool)
    (protoCall : String → Option Json → Except JsErr Json) (fuel : Nat) (ser : Json) :
    handleRpc validate reqSchema env methods dontDefault prod protoCall fuel
        (.error ser) =
      some ⟨.failure (-32700) "Parse error" ser (some .null), false, []⟩ := rfl

/-- The failing request for C3: well-formed and envelope-valid, naming the
unregistered method "toString". -/
def toStringRequest : Json :=
  .obj [("jsonrpc", .str "2.0"), ("method", .str "toString"), ("id", .num 1)]

/-- `Object.prototype.toString`, invoked as a handler, returns the default
object stringification. -/
def protoToStringCall : String → Option Json → Except JsErr Json :=
  fun _ _ => .ok (.str "[object Object]")

/-- C3 (code bug, evaluated at the failing input): with an EMPTY registry,
the request naming the unregistered method "toString" is NOT answered with
-32601 "Method not found". The registry is a plain object literal, so
`methods['toString']` finds the inherited, truthy
`Object.prototype.toString`; its `paramsSchema` is undefined, so defaulting
and validation are skipped and the inherited function is dispatched,
producing a success response with result "[object Object]". -/
theorem handleRpc_unregistered_toString_dispatched :
    handleRpc (modelValidate 2) requestSchema [] [] [] false protoToStringCall 1
        (.ok toStringRequest) =
      some ⟨.success (.str "[object Object]") (some (.num 1)), false,
        [("toString", none)]⟩ := rfl

/-! ## C5: response ids and single dispatch -/

theorem Json.isNull_false (js : Json) (h : js ≠ .null) : js.isNull = false := by
  cases js with
  | null => exact absurd rfl h
  | bool b => rfl
  | num n => rfl
  | str s => rfl
  | arr es => rfl
  | obj f => rfl

theorem finishDispatch_rid (prod : Bool) (out : Except JsErr Json) (mkey : String)
    (ps rid : Option Json) : (finishDispatch prod out mkey ps rid).response.rid = rid := by
  cases out with
  | ok r => rfl
  | error e => cases e <;> rfl

theorem finishDispatch_dispatched (prod : Bool) (out : Except JsErr Json) (mkey : String)
    (ps rid : Option Json) :
    (finishDispatch prod out mkey ps rid).dispatched = [(mkey, ps)] := by
  cases out with
  | ok r => rfl
  | error e => cases e <;> rfl

theorem injectStep_field (js : Json) (kv : String × Schema) (k : String)
    (hk : k ≠ "params") : jsField (injectStep js kv) k = jsField js k := by
  unfold injectStep
  cases kv.2.default with
  | none => rfl
  | some d =>
      cases lodashGet2 js "params" kv.1 with
      | some v => rfl
      | none =>
          unfold lodashSetParams
          cases js with
          | obj f => exact alSet_get_other f "params" k _ hk
          | null => rfl
          | bool b => rfl
          | num n => rfl
          | str s => rfl
          | arr es => rfl

theorem injectDefaults_field (props : List (String × Schema)) :
    ∀ (js : Json) (k : String), k ≠ "params" →
      jsField (injectDefaults props js) k = jsField js k := by
  induction props with
  | nil => intro js k hk; rfl
  | cons kv rest ih =>
      intro js k hk
      show jsField (injectDefaults rest (injectStep js kv)) k = _
      rw [ih (injectStep js kv) k hk, injectStep_field js kv k hk]

theorem defaultParamsStep_field (env : SchemaEnv) (fuel : Nat) (dontDefault : List String)
    (entry : MethodEntry) (js js2 : Json) (k : String) (hk : k ≠ "params")
    (h : defaultParamsStep env fuel dontDefault entry js = some js2) :
    jsField js2 k = jsField js k := by
  unfold defaultParamsStep at h
  cases hs : entry.paramsSchema with
  | none =>
      simp only [hs] at h
      injection h with h1
      rw [← h1]
  | some sch =>
      simp only [hs] at h
      by_cases hdd : inDontDefault dontDefault js = true
      · rw [if_pos hdd] at h
        injection h with h1
        rw [← h1]
      · rw [if_neg hdd] at h
        cases hr : resolveAndCombineAllOfs fuel env sch with
        | none => simp only [hr] at h; exact absurd h (by simp)
        | some combined =>
            simp only [hr] at h
            injection h with h1
            rw [← h1, injectDefaults_field _ _ _ hk]

/-- C5: every terminal response carries the id known at its exit point —
null when JSON parsing failed, otherwise the parsed request's id, on every
exit (invalid envelope, unknown method, invalid params, handler fault,
success); and for every request accepted by validation the handler is
dispatched exactly once, the success response carrying the handler's result
and the request's id. -/
theorem handleRpc_id_and_single_dispatch :
    (∀ (validate : Json → Schema → Option VError) (reqSchema : Schema) (env : SchemaEnv)
        (methods : List (String × MethodEntry)) (dontDefault : List String) (prod : Bool)
        (protoCall : String → Option Json → Except JsErr Json) (fuel : Nat)
        (parsed : Except Json Json) (out : PipelineOut),
        handleRpc validate reqSchema env methods dontDefault prod protoCall fuel parsed =
          some out →
        out.response.rid = match parsed with
          | .error _ => some Json.null
          | .ok js => jsField js "id") ∧
    (∀ (validate : Json → Schema → Option VError) (reqSchema : Schema) (env : SchemaEnv)
        (methods : List (String × MethodEntry)) (dontDefault : List String) (prod : Bool)
        (protoCall : String → Option Json → Except JsErr Json) (fuel : Nat)
        (js : Json) (entry : MethodEntry) (js2 : Json),
        validate js reqSchema = none →
        js ≠ Json.null →
        lookupMethod methods (methodKey js) = .own entry →
        defaultParamsStep env fuel dontDefault entry js = some js2 →
        paramsValidation validate entry js2 = none →
        ∃ out,
          handleRpc validate reqSchema env methods dontDefault prod protoCall fuel
              (.ok js) = some out ∧
          out.dispatched = [(methodKey js, jsField js2 "params")] ∧
          ∀ r, entry.handler (jsField js2 "params") = .ok r →
            out.response = .success r (jsField js "id")) := by
  constructor
  · intro validate reqS env methods dd prod pc fuel parsed out h
    cases parsed with
    | error ser =>
        simp only [handleRpc] at h
        injection h with h1
        rw [← h1]
        rfl
    | ok js =>
        simp only [handleRpc] at h
        cases hv : validate js reqS with
        | some e =>
            simp only [hv] at h
            injection h with h1
            rw [← h1]
            rfl
        | none =>
            simp only [hv] at h
            cases hn : js.isNull with
            | true => simp only [hn, if_true] at h; exact absurd h (by simp)
            | false =>
                simp only [hn, Bool.false_eq_true, if_false] at h
                cases hl : lookupMethod methods (methodKey js) with
                | absent =>
                    simp only [hl] at h
                    injection h with h1
                    rw [← h1]
                    rfl
                | proto name =>
                    simp only [hl] at h
                    injection h with h1
                    rw [← h1, finishDispatch_rid]
                | own entry =>
                    simp only [hl] at h
                    cases hd : defaultParamsStep env fuel dd entry js with
                    | none => simp only [hd] at h; exact absurd h (by simp)
                    | some js2 =>
                        simp only [hd] at h
                        have hid : jsField js2 "id" = jsField js "id" :=
                          defaultParamsStep_field env fuel dd entry js js2 "id"
                            (by decide) hd
                        cases hpv : paramsValidation validate entry js2 with
                        | some e =>
                            simp only [hpv] at h
                            injection h with h1
                            rw [← h1]
                            exact hid
                        | none =>
                            simp only [hpv] at h
                            injection h with h1
                            rw [← h1, finishDispatch_rid]
                            exact hid
  · intro validate reqS env methods dd prod pc fuel js entry js2 hv hnn hl hd hpv
    refine ⟨finishDispatch prod (entry.handler (jsField js2 "params")) (methodKey js)
      (jsField js2 "params") (jsField js2 "id"), ?_, ?_, ?_⟩
    · simp only [handleRpc, hv, Json.isNull_false js hnn, Bool.false_eq_true, if_false,
        hl, hd, hpv]
    · rw [finishDispatch_dispatched]
    · intro r hr
      rw [hr]
      show RpcResponse.success r (jsField js2 "id") = _
      rw [defaultParamsStep_field env fuel dd entry js js2 "id" (by decide) hd]

/-- A registered method with no parameter schema whose handler returns "hi". -/
def simpleEntry : MethodEntry := ⟨none, fun _ => .ok (.str "hi")⟩

/-- Witness for C5: a valid request for method "m" with id 7 is dispatched
exactly once and answered with the handler's result under id 7. -/
theorem handleRpc_id_and_single_dispatch_witness :
    ∃ out,
      handleRpc (fun _ _ => none) requestSchema [] [("m", simpleEntry)] [] false
          protoToStringCall 0 (.ok (.obj [("method", .str "m"), ("id", .num 7)])) =
        some out ∧
      out.dispatched = [("m", none)] ∧
      out.response = .success (.str "hi") (some (.num 7)) := by
  obtain ⟨out, h1, h2, h3⟩ := handleRpc_id_and_single_dispatch.2 (fun _ _ => none)
    requestSchema [] [("m", simpleEntry)] [] false protoToStringCall 0
    (.obj [("method", .str "m"), ("id", .num 7)]) simpleEntry
    (.obj [("method", .str "m"), ("id", .num 7)]) rfl (by simp) rfl rfl rfl
  exact ⟨out, h1, h2, h3 (.str "hi") rfl⟩

/-! ## C8 and C9: params validation failure and handler faults -/

/-- C8: for every method declaring a parameter schema, the pipeline
validates `params` — the empty object when `params` is absent — against the
method's RAW (uncomposed) `paramsSchema` after default injection, and on a
validation failure answers -32602 "Invalid params" with the flattened
validation errors (the FlatErrorMap) as data, reporting nothing and
dispatching nothing. -/
theorem handleRpc_invalid_params
    (validate : Json → Schema → Option VError) (reqSchema : Schema) (env : SchemaEnv)
    (methods : List (String × MethodEntry)) (dontDefault : List String) (prod : Bool)
    (protoCall : String → Option Json → Except JsErr Json) (fuel : Nat)
    (js : Json) (entry : MethodEntry) (sch : Schema) (js2 : Json) (err : VError)
    (hEnv : validate js reqSchema = none)
    (hnn : js ≠ Json.null)
    (hLook : lookupMethod methods (methodKey js) = .own entry)
    (hSch : entry.paramsSchema = some sch)
    (hDef : defaultParamsStep env fuel dontDefault entry js = some js2)
    (hParams : jsField js2 "params" = none ∨
      ∃ pf, jsField js2 "params" = some (.obj pf))
    (hInvalid : validate
      (match jsField js2 "params" with
        | some p => p
        | none => .obj []) sch = some err) :
    handleRpc validate reqSchema env methods dontDefault prod protoCall fuel (.ok js) =
      some ⟨.failure (-32602) "Invalid params" (makeHashOutOfValidateErrors (.obj []) err)
        (jsField js2 "id"), false, []⟩ := by
  have hpe : paramsOrEmpty (jsField js2 "params") =
      match jsField js2 "params" with
      | some p => p
      | none => .obj [] := by
    rcases hParams with h | ⟨pf, h⟩
    · rw [h]; rfl
    · rw [h]; rfl
  have hpv : paramsValidation validate entry js2 = some err := by
    unfold paramsValidation
    simp only [hSch]
    rw [hpe]
    exact hInvalid
  simp only [handleRpc, hEnv, Json.isNull_false js hnn, Bool.false_eq_true, if_false,
    hLook, hDef, hpv]

/-- C9: faults raised by a dispatched handler: a recognized application
error (an RpcError carrying its own data/message/code) is propagated
verbatim in the error response and never reported; any other fault is
wrapped as -32603 "Internal error", whose data is the serialized fault
outside production mode, while in production mode the data is redacted (to
the literal false, the short-circuited conjunction) and the fault is
reported to the observability sink. -/
theorem handleRpc_handler_faults
    (validate : Json → Schema → Option VError) (reqSchema : Schema) (env : SchemaEnv)
    (methods : List (String × MethodEntry)) (dontDefault : List String)
    (protoCall : String → Option Json → Except JsErr Json) (fuel : Nat)
    (js : Json) (entry : MethodEntry) (js2 : Json)
    (hEnv : validate js reqSchema = none)
    (hnn : js ≠ Json.null)
    (hLook : lookupMethod methods (methodKey js) = .own entry)
    (hDef : defaultParamsStep env fuel dontDefault entry js = some js2)
    (hVal : paramsValidation validate entry js2 = none) :
    (∀ (d : Json) (m : String) (c : Int),
        entry.handler (jsField js2 "params") = .error (.rpcError d m c) →
        ∀ prod : Bool,
          handleRpc validate reqSchema env methods dontDefault prod protoCall fuel
              (.ok js) =
            some ⟨.failure c m d (jsField js2 "id"), false,
              [(methodKey js, jsField js2 "params")]⟩) ∧
    (∀ ser : Json, entry.handler (jsField js2 "params") = .error (.other ser) →
        handleRpc validate reqSchema env methods dontDefault false protoCall fuel
            (.ok js) =
          some ⟨.failure (-32603) "Internal error" ser (jsField js2 "id"), false,
            [(methodKey js, jsField js2 "params")]⟩ ∧
        handleRpc validate reqSchema env methods dontDefault true protoCall fuel
            (.ok js) =
          some ⟨.failure (-32603) "Internal error" (.bool false) (jsField js2 "id"),
            true, [(methodKey js, jsField js2 "params")]⟩) := by
  constructor
  · intro d m c hr prod
    simp only [handleRpc, hEnv, Json.isNull_false js hnn, Bool.false_eq_true, if_false,
      hLook, hDef, hVal, hr]
    rfl
  · intro ser hr
    constructor
    · simp only [handleRpc, hEnv, Json.isNull_false js hnn, Bool.false_eq_true, if_false,
        hLook, hDef, hVal, hr]
      rfl
    · simp only [handleRpc, hEnv, Json.isNull_false js hnn, Bool.false_eq_true, if_false,
        hLook, hDef, hVal, hr]
      rfl

def nameSchema : Schema := .mk none none none (some "string") (some (.str "world"))

def greetSchema : Schema :=
  .mk none (some [("name", nameSchema)]) none (some "object") none

def greetEntry : MethodEntry := ⟨some greetSchema, fun _ => .ok (.str "hello")⟩

def greetInvalidRequest : Json :=
  .obj [("jsonrpc", .str "2.0"), ("method", .str "greet"),
    ("params", .obj [("name", .num 123)]), ("id", .num 2)]

def nameTypeError : VError :=
  .node "Invalid type (expected string)" "/name" "/properties/name/type" none none

/-- Witness for C8: the spec's end-to-end scenario — `greet` requires `name`
to be a string, `params = {name: 123}` — answers -32602 "Invalid params"
with the FlatErrorMap keyed by "name", under the request's id 2. -/
theorem handleRpc_invalid_params_witness :
    handleRpc (modelValidate 2) requestSchema [] [("greet", greetEntry)] [] false
        protoToStringCall 1 (.ok greetInvalidRequest) =
      some ⟨.failure (-32602) "Invalid params"
        (.obj [("name", .str "Invalid type (expected string)")]) (some (.num 2)),
        false, []⟩ := by
  have h := handleRpc_invalid_params (modelValidate 2) requestSchema []
    [("greet", greetEntry)] [] false protoToStringCall 1 greetInvalidRequest greetEntry
    greetSchema greetInvalidRequest nameTypeError rfl (by simp [greetInvalidRequest]) rfl rfl rfl
    (Or.inr ⟨[("name", .num 123)], rfl⟩) rfl
  rw [h, makeHash_leaf (.obj []) nameTypeError rfl]
  rfl

/-- A handler raising a recognized application error. -/
def appFaultEntry : MethodEntry :=
  ⟨none, fun _ => .error (.rpcError (.str "d") "Custom" 7)⟩

/-- A handler raising an unrecognized fault (its serializeError form). -/
def boomEntry : MethodEntry := ⟨none, fun _ => .error (.other (.str "boom-stack"))⟩

def appRequest : Json := .obj [("method", .str "app"), ("id", .num 9)]

def boomRequest : Json := .obj [("method", .str "boom"), ("id", .num 3)]

/-- Witness for C9 at concrete requests: verbatim propagation of an
application error; -32603 with serialized fault in non-production; -32603
with redacted data and a report in production. -/
theorem handleRpc_handler_faults_witness :
    handleRpc (fun _ _ => none) requestSchema [] [("app", appFaultEntry)] [] false
        protoToStringCall 0 (.ok appRequest) =
      some ⟨.failure 7 "Custom" (.str "d") (some (.num 9)), false, [("app", none)]⟩ ∧
    handleRpc (fun _ _ => none) requestSchema [] [("boom", boomEntry)] [] false
        protoToStringCall 0 (.ok boomRequest) =
      some ⟨.failure (-32603) "Internal error" (.str "boom-stack") (some (.num 3)),
        false, [("boom", none)]⟩ ∧
    handleRpc (fun _ _ => none) requestSchema [] [("boom", boomEntry)] [] true
        protoToStringCall 0 (.ok boomRequest) =
      some ⟨.failure (-32603) "Internal error" (.bool false) (some (.num 3)),
        true, [("boom", none)]⟩ := by
  refine ⟨?_, ?_, ?_⟩
  · exact (handleRpc_handler_faults (fun _ _ => none) requestSchema [] [("app", appFaultEntry)]
      [] protoToStringCall 0 appRequest appFaultEntry appRequest rfl
      (by simp [appRequest]) rfl rfl
      rfl).1 (.str "d") "Custom" 7 rfl false
  · exact ((handleRpc_handler_faults (fun _ _ => none) requestSchema [] [("boom", boomEntry)]
      [] protoToStringCall 0 boomRequest boomEntry boomRequest rfl
      (by simp [boomRequest]) rfl rfl
      rfl).2 (.str "boom-stack") rfl).1
  · exact ((handleRpc_handler_faults (fun _ _ => none) requestSchema [] [("boom", boomEntry)]
      [] protoToStringCall 0 boomRequest boomEntry boomRequest rfl
      (by simp [boomRequest]) rfl rfl
      rfl).2 (.str "boom-stack") rfl).2

/-! ## C4: default injection -/

theorem injectStep_get_other (js : Json) (kv : String × Schema) (k : String)
    (hk : kv.1 ≠ k) :
    lodashGet2 (injectStep js kv) "params" k = lodashGet2 js "params" k := by
  unfold injectStep
  cases kv.2.default with
  | none => rfl
  | some d =>
      cases hget : lodashGet2 js "params" kv.1 with
      | some v => rfl
      | none =>
          cases js with
          | null => rfl
          | bool b => rfl
          | num n => rfl
          | str s => rfl
          | arr es => rfl
          | obj f =>
              show lodashGet2 (lodashSetParams (.obj f) kv.1 d) "params" k = _
              unfold lodashSetParams lodashGet2 jsField
              simp only [alSet_get_same]
              rw [alSet_get_other _ kv.1 k d (Ne.symm hk)]
              cases hp : alGet f "params" with
              | none => rfl
              | some p => cases p <;> rfl

theorem injectStep_obj (f : List (String × Json)) (kv : String × Schema) :
    ∃ g, injectStep (.obj f) kv = .obj g := by
  unfold injectStep
  cases kv.2.default with
  | none => exact ⟨f, rfl⟩
  | some d =>
      cases lodashGet2 (.obj f) "params" kv.1 with
      | some v => exact ⟨f, rfl⟩
      | none => exact ⟨_, rfl⟩

theorem injectStep_sets (js : Json) (k : String) (sch : Schema) (d : Json)
    (hd : sch.default = some d) (habs : lodashGet2 js "params" k = none)
    (hobj : ∃ f, js = .obj f) :
    lodashGet2 (injectStep js (k, sch)) "params" k = some d := by
  obtain ⟨f, rfl⟩ := hobj
  unfold injectStep
  simp only [hd, habs]
  unfold lodashSetParams lodashGet2 jsField
  simp only [alSet_get_same]

theorem injectDefaults_keeps_present (props : List (String × Schema)) :
    ∀ (js : Json) (k : String) (v : Json),
      lodashGet2 js "params" k = some v →
      lodashGet2 (injectDefaults props js) "params" k = some v := by
  induction props with
  | nil => intro js k v h; exact h
  | cons kv rest ih =>
      intro js k v h
      show lodashGet2 (injectDefaults rest (injectStep js kv)) "params" k = some v
      by_cases hk : kv.1 = k
      · have hskip : injectStep js kv = js := by
          unfold injectStep
          cases kv.2.default with
          | none => rfl
          | some d => simp only [hk, h]
        rw [hskip]
        exact ih js k v h
      · exact ih (injectStep js kv) k v (by rw [injectStep_get_other js kv k hk]; exact h)

theorem injectDefaults_sets_absent (props : List (String × Schema)) :
    ∀ (js : Json) (k : String) (sch : Schema) (d : Json),
      (props.map Prod.fst).Nodup →
      alGet props k = some sch → sch.default = some d →
      lodashGet2 js "params" k = none →
      (∃ g, js = .obj g) →
      lodashGet2 (injectDefaults props js) "params" k = some d := by
  induction props with
  | nil => intro js k sch d _ hget _ _ _; simp [alGet] at hget
  | cons kv rest ih =>
      intro js k sch d hnd hget hd habs hobj
      simp only [List.map_cons, List.nodup_cons] at hnd
      show lodashGet2 (injectDefaults rest (injectStep js kv)) "params" k = some d
      by_cases hk : kv.1 = k
      · have hrany : rest.any (fun kv2 => kv2.1 == k) = false := by
          rw [List.any_eq_false]
          intro kv2 hm
          simp only [beq_iff_eq]
          intro hc
          apply hnd.1
          rw [hk, ← hc]
          exact List.mem_map_of_mem Prod.fst hm
        have hr : alGet rest k = none := alGet_any_false rest k hrany
        rw [alGet_cons, hr] at hget
        simp only [optOr, hk, beq_self_eq_true, if_true] at hget
        have hkv : kv = (k, sch) := by
          cases kv with
          | mk k1 s1 =>
              simp only at hk
              injection hget with hget2
              rw [hk]
              exact congrArg (fun x => (k, x)) hget2
        rw [hkv]
        have hstep := injectStep_sets js k sch d hd habs hobj
        exact injectDefaults_keeps_present rest (injectStep js (k, sch)) k d hstep
      · have habs2 : lodashGet2 (injectStep js kv) "params" k = none := by
          rw [injectStep_get_other js kv k hk]; exact habs
        have hobj2 : ∃ g, injectStep js kv = .obj g := by
          obtain ⟨f, rfl⟩ := hobj
          exact injectStep_obj f kv
        have hget2 : alGet rest k = some sch := by
          rw [alGet_cons] at hget
          simp only [hk, if_neg, beq_iff_eq, if_false, optOr_none_right] at hget
          exact hget
        exact ih (injectStep js kv) k sch d hnd.2 hget2 hd habs2 hobj2

/-- C4: for every property of the composed schema's properties declaring a
default, injection sets `params` at that key to the declared default exactly
when `params` has no value there (and leaves every already-present value
unchanged); and the defaulting stage is skipped entirely — the request
object passes through unchanged — for methods with no parameter schema and
for methods listed in the skip-defaulting (`dontDefault`) option, while
otherwise it injects the defaults of the RESOLVED composed schema's
properties. -/
theorem injectDefaults_and_skip_spec :
    (∀ (props : List (String × Schema)) (f : List (String × Json)) (k : String)
        (sch : Schema) (d : Json),
        (props.map Prod.fst).Nodup →
        alGet props k = some sch → sch.default = some d →
        lodashGet2 (.obj f) "params" k = none →
        lodashGet2 (injectDefaults props (.obj f)) "params" k = some d) ∧
    (∀ (props : List (String × Schema)) (js : Json) (k : String) (v : Json),
        lodashGet2 js "params" k = some v →
        lodashGet2 (injectDefaults props js) "params" k = some v) ∧
    (∀ (env : SchemaEnv) (fuel : Nat) (dontDefault : List String) (entry : MethodEntry)
        (js : Json), entry.paramsSchema = none →
        defaultParamsStep env fuel dontDefault entry js = some js) ∧
    (∀ (env : SchemaEnv) (fuel : Nat) (dontDefault : List String) (entry : MethodEntry)
        (js : Json) (sch : Schema), entry.paramsSchema = some sch →
        inDontDefault dontDefault js = true →
        defaultParamsStep env fuel dontDefault entry js = some js) ∧
    (∀ (env : SchemaEnv) (fuel : Nat) (dontDefault : List String) (entry : MethodEntry)
        (js : Json) (sch combined : Schema), entry.paramsSchema = some sch →
        inDontDefault dontDefault js = false →
        resolveAndCombineAllOfs fuel env sch = some combined →
        defaultParamsStep env fuel dontDefault entry js =
          some (injectDefaults combined.propertiesD js)) := by
  refine ⟨?_, ?_, ?_, ?_, ?_⟩
  · intro props f k sch d hnd hget hd habs
    exact injectDefaults_sets_absent props (.obj f) k sch d hnd hget hd habs ⟨f, rfl⟩
  · exact injectDefaults_keeps_present
  · intro env fuel dontDefault entry js h
    unfold defaultParamsStep
    simp only [h]
  · intro env fuel dontDefault entry js sch h hdd
    unfold defaultParamsStep
    simp only [h, hdd, if_true]
  · intro env fuel dontDefault entry js sch combined h hdd hr
    unfold defaultParamsStep
    simp only [h, hdd, Bool.false_eq_true, if_false, hr]

/-- Witness for C4: with `name` defaulting to "world", absent params gain
`name = "world"`; provided `params = {name: "X"}` is left untouched. -/
theorem injectDefaults_and_skip_spec_witness :
    lodashGet2 (injectDefaults [("name", nameSchema)]
        (.obj [("method", .str "greet")])) "params" "name" = some (.str "world") ∧
    lodashGet2 (injectDefaults [("name", nameSchema)]
        (.obj [("method", .str "greet"), ("params", .obj [("name", .str "X")])]))
        "params" "name" = some (.str "X") := by
  constructor
  · exact injectDefaults_and_skip_spec.1 [("name", nameSchema)] [("method", .str "greet")]
      "name" nameSchema (.str "world") (by simp) rfl rfl rfl
  · exact injectDefaults_and_skip_spec.2.1 [("name", nameSchema)]
      (.obj [("method", .str "greet"), ("params", .obj [("name", .str "X")])])
      "name" (.str "X") rfl

/-! ## C2: required-field errors are keyed by the missing field's name -/

/-- The validation error the modelled validator reports for an envelope
lacking `method`. -/
def missingMethodError : VError :=
  .node "Missing required property: method" "" "/required/0" (some "method") none

theorem findMissingRequired_method (f : List (String × Json))
    (hmethod : alGet f "method" = none) :
    findMissingRequired f 0 ["method"] = some (0, "method") := by
  unfold findMissingRequired
  rw [hmethod]
  rfl

theorem modelValidate_missing_method (fuel : Nat) (f : List (String × Json))
    (hmethod : alGet f "method" = none) :
    modelValidate (fuel + 1) (.obj f) requestSchema = some missingMethodError := by
  show validateMembers (validateSchema fuel) "" "" (.obj f) requestSchema =
    some missingMethodError
  unfold validateMembers
  rw [show requestSchema.required.getD [] = ["method"] from rfl]
  simp only [findMissingRequired_method f hmethod]
  rfl

/-- C2: (i) the flattener keys a node whose schema pointer matches the
required rule by the missing field's own name `params.key` (for a plain,
dot-free key), not by the node's dataPath — a required error with
`params.key = "title"` flattens to `{title: <message>}`; and (ii) through
the pipeline, every well-formed JSON object lacking a `method` field is
answered -32600 with a FlatErrorMap keyed by "method", the (first and only)
missing required field of the envelope schema. -/
theorem required_error_keyed_by_field_name :
    (∀ (e : VError) (k : String),
        strContains e.schemaPath "required" = true →
        e.paramsKey = some k →
        e.subErrors = none →
        parsePath k = [k] →
        makeHashOutOfValidateErrors (.obj []) e = .obj [(k, .str e.message)]) ∧
    (∀ (fuel pfuel : Nat) (env : SchemaEnv) (methods : List (String × MethodEntry))
        (dontDefault : List String) (prod : Bool)
        (protoCall : String → Option Json → Except JsErr Json)
        (f : List (String × Json)),
        alGet f "method" = none →
        handleRpc (modelValidate (fuel + 1)) requestSchema env methods dontDefault prod
            protoCall pfuel (.ok (.obj f)) =
          some ⟨.failure (-32600) "Invalid request"
            (.obj [("method", .str "Missing required property: method")])
            (alGet f "id"), false, []⟩) := by
  constructor
  · intro e k hreq hkey hsub hpk
    rw [makeHash_leaf _ e hsub]
    have hep : errPath e = k := by simp [errPath, hreq, hkey]
    rw [hep, hpk]
    rfl
  · intro fuel pfuel env methods dontDefault prod protoCall f hmethod
    have hval := modelValidate_missing_method fuel f hmethod
    simp only [handleRpc, hval]
    rw [makeHash_leaf (.obj []) missingMethodError rfl]
    rfl

/-- Witness for C2: the title example, and a concrete envelope `{jsonrpc,
id: 3}` lacking `method` answered -32600 with data keyed "method". -/
theorem required_error_keyed_by_field_name_witness :
    makeHashOutOfValidateErrors (.obj [])
        (.node "Title is required" "" "/allOf/0/required/0" (some "title") none) =
      .obj [("title", .str "Title is required")] ∧
    handleRpc (modelValidate 1) requestSchema [] [] [] false protoToStringCall 0
        (.ok (.obj [("jsonrpc", .str "2.0"), ("id", .num 3)])) =
      some ⟨.failure (-32600) "Invalid request"
        (.obj [("method", .str "Missing required property: method")]) (some (.num 3)),
        false, []⟩ := by
  constructor
  · exact required_error_keyed_by_field_name.1
      (.node "Title is required" "" "/allOf/0/required/0" (some "title") none) "title"
      rfl rfl rfl rfl
  · exact required_error_keyed_by_field_name.2 0 0 [] [] [] false protoToStringCall
      [("jsonrpc", .str "2.0"), ("id", .num 3)] rfl
